import Mathlib

/-!
Shallow embedding of the Shan-Word-Freq-Count pipeline
(src/dict_convert.py and src/data_verrified.py) and proofs about it.

The persisted JSON document is modelled with optional fields (a missing
JSON key is `none`).  Python `Counter` objects are modelled as ordered
association lists (first-seen key order, unique keys when produced by the
code); `Counter.__getitem__` / `dict.get(k, 0)` is `cget`, `counter[k] += 1`
is `cincr`.  The Python `list.sort(key=..., reverse=True)`, a stable
descending sort, is modelled by the stable insertion sort `sortDescBy`.
The pluggable tokenizer and syllable segmenter are parameters.
-/

namespace ShanFreq

/-- A `words[]` element of the resource: `{word, frequency}`. -/
structure WordEntry where
  word : String
  frequency : Nat
deriving DecidableEq, Repr

/-- A `syllables[]` element of the resource: `{syllable, frequency}`. -/
structure SyllableEntry where
  syllable : String
  frequency : Nat
deriving DecidableEq, Repr

/-- The `metadata` object; every key may be absent. -/
structure Metadata where
  total_words : Option Nat
  words_with_frequency : Option Nat
  total_syllables : Option Nat
  syllables_with_frequency : Option Nat
  phase : Option String
  source : Option String
deriving DecidableEq, Repr

/-- The whole JSON document; every top-level key may be absent. -/
structure JsonData where
  metadata : Option Metadata
  words : Option (List WordEntry)
  syllables : Option (List SyllableEntry)
deriving DecidableEq, Repr

/-- Counter lookup with default 0: Python `counter[k]` / `dict.get(k, 0)`. -/
def cget : List (String × Nat) → String → Nat
  | [], _ => 0
  | p :: ps, k => if p.fst = k then p.snd else cget ps k

/-- Counter increment: Python `counter[k] += 1` (updates the existing key,
or inserts it at the end in first-seen order). -/
def cincr : List (String × Nat) → String → List (String × Nat)
  | [], k => [(k, 1)]
  | p :: ps, k => if p.fst = k then (p.fst, p.snd + 1) :: ps else p :: cincr ps k

/-- Stable insertion of `e` into a descending-by-`key` list: `e` goes after
every element with a strictly larger key and before the rest, so an element
inserted earlier in original order stays before equal-key elements. -/
def insertDescBy {α : Type} (key : α → Nat) (e : α) : List α → List α
  | [] => [e]
  | x :: xs => if key x ≤ key e then e :: x :: xs else x :: insertDescBy key e xs

/-- Stable sort by `key`, descending — the semantics of Python
`list.sort(key=..., reverse=True)`. -/
def sortDescBy {α : Type} (key : α → Nat) : List α → List α
  | [] => []
  | x :: xs => insertDescBy key x (sortDescBy key xs)

/-- dict_convert.py `create_basic_json` (lines 79–94): one WordEntry per
input word, frequency 0, metadata `{total_words, source, phase}` only. -/
def create_basic_json (words : List String) : JsonData :=
  { metadata := some
      { total_words := some words.length
        words_with_frequency := none
        total_syllables := none
        syllables_with_frequency := none
        phase := some "basic_conversion"
        source := some "dictionary.txt" }
    words := some (words.map (fun w => { word := w, frequency := 0 }))
    syllables := some [] }

/-- Python `str.lower()` as used for the set-membership tests:
lowercase every character.  (Semantically `String.toLower`, restated over
the character list so that it computes by kernel reduction.) -/
def lower (s : String) : String := String.mk (s.data.map Char.toLower)

/-- dict_convert.py line 170: `syllables if syllables else [token]` — the
segmentation result, falling back to the token itself when it is empty. -/
def segWithFallback (segment : String → List String) (token : String) : List String :=
  let syls := segment token
  if syls.isEmpty then [token] else syls

/-- Body of the token loop of `analyze_frequency` (lines 164–171): gate the
word count on exact dictionary membership, count every syllable. -/
def countToken (dictionary_words : List String) (segment : String → List String)
    (acc : List (String × Nat) × List (String × Nat)) (token : String) :
    List (String × Nat) × List (String × Nat) :=
  let wc := if dictionary_words.contains token then cincr acc.fst token else acc.fst
  (wc, (segWithFallback segment token).foldl cincr acc.snd)

/-- dict_convert.py `analyze_frequency` (lines 146–176), parameterized by
the pluggable tokenizer and syllable segmenter. -/
def analyze_frequency (tokenize segment : String → List String)
    (texts : List String) (dictionary_words : List String) :
    List (String × Nat) × List (String × Nat) :=
  texts.foldl
    (fun acc text => (tokenize text).foldl (countToken dictionary_words segment) acc)
    ([], [])

/-- dict_convert.py `update_json_with_frequencies` (lines 178–198): set each
word frequency from the counter, stable-sort descending, update `phase`,
`words_with_frequency` and `total_syllables` (only those metadata keys).
Missing `words` or `metadata` keys would raise in Python: `none`. -/
def update_json_with_frequencies (basic_json : JsonData)
    (word_frequencies syllable_frequencies : List (String × Nat)) : Option JsonData :=
  match basic_json.words, basic_json.metadata with
  | some ws, some md =>
    let updated := ws.map (fun w => { word := w.word, frequency := cget word_frequencies w.word })
    let sorted := sortDescBy WordEntry.frequency updated
    some { basic_json with
      words := some sorted
      metadata := some { md with
        phase := some "frequency_analysis_complete"
        words_with_frequency := some (sorted.countP (fun w => decide (w.frequency > 0)))
        total_syllables := some syllable_frequencies.length } }
  | _, _ => none

/-- dict_convert.py `generate_syllable_data` (lines 200–211): one entry per
counter key, sorted by frequency descending (`Counter.most_common`, a stable
sort on first-seen order). -/
def generate_syllable_data (syllable_frequencies : List (String × Nat)) : List SyllableEntry :=
  (sortDescBy Prod.snd syllable_frequencies).map
    (fun p => { syllable := p.fst, frequency := p.snd })

/-- dict_convert.py `run_conversion` phases 3–4 (lines 249–253): apply the
frequency update, then install the generated syllable list. -/
def build_with_frequencies (basic : JsonData)
    (word_freq syllable_freq : List (String × Nat)) : Option JsonData :=
  (update_json_with_frequencies basic word_freq syllable_freq).map
    (fun j => { j with syllables := some (generate_syllable_data syllable_freq) })

/-- dict_convert.py `run_conversion` (lines 226–261), data path only: halt
(`none`) on an empty dictionary; skip frequency analysis on an empty corpus. -/
def run_conversion (tokenize segment : String → List String)
    (words : List String) (texts : List String) : Option JsonData :=
  if words.isEmpty then none
  else
    let basic := create_basic_json words
    if texts.isEmpty then some basic
    else
      let freqs := analyze_frequency tokenize segment texts words
      build_with_frequencies basic freqs.fst freqs.snd

/-- data_verrified.py `filter_syllables_by_dictionary` (lines 19–79): keep
the syllables whose lowercased string is in the dictionary set; if a
`metadata` key exists, recompute all four counters and set the phase. -/
def filter_syllables_by_dictionary (json_data : JsonData)
    (dictionary_words : List String) : JsonData :=
  match json_data.syllables with
  | none => json_data
  | some syls =>
    let filtered := syls.filter (fun e => dictionary_words.contains (lower e.syllable))
    match json_data.metadata with
    | none => { json_data with syllables := some filtered }
    | some md =>
      { json_data with
        syllables := some filtered
        metadata := some { md with
          total_words := some (json_data.words.getD []).length
          words_with_frequency := some
            (match json_data.words with
             | some ws => ws.countP (fun w => decide (w.frequency > 0))
             | none => 0)
          total_syllables := some filtered.length
          syllables_with_frequency := some
            (filtered.countP (fun s => decide (s.frequency > 0)))
          phase := some "dictionary_filtered" } }

/-- Modelled from the spec (claim C3 reading of §6): a variant of
`analyze_frequency` whose dictionary-membership gate tests the LOWERCASED
token, to be compared with the exact-match gate of the source. -/
def analyze_frequency_lowered (tokenize segment : String → List String)
    (texts : List String) (dictionary_words : List String) :
    List (String × Nat) × List (String × Nat) :=
  texts.foldl
    (fun acc text => (tokenize text).foldl
      (fun acc2 token =>
        let wc := if dictionary_words.contains (lower token)
                  then cincr acc2.fst token else acc2.fst
        (wc, (segWithFallback segment token).foldl cincr acc2.snd))
      acc)
    ([], [])

/-- The C1 invariant on a resource: the metadata fields `total_syllables` and
`syllables_with_frequency` keys are present and agree with the syllable
list. -/
def syllableCountersConsistent (j : JsonData) : Prop :=
  j.metadata.bind Metadata.total_syllables = some (j.syllables.getD []).length ∧
  j.metadata.bind Metadata.syllables_with_frequency
    = some ((j.syllables.getD []).countP (fun s => decide (s.frequency > 0)))

instance (j : JsonData) : Decidable (syllableCountersConsistent j) := by
  unfold syllableCountersConsistent; infer_instance

/-! Helper lemmas about the counter operations. -/

theorem cget_nil (k : String) : cget [] k = 0 := rfl

theorem cget_cincr (c : List (String × Nat)) (q k : String) :
    cget (cincr c q) k = cget c k + (if q = k then 1 else 0) := by
  induction c with
  | nil =>
    by_cases h : q = k <;> simp [cincr, cget, h]
  | cons p ps ih =>
    by_cases h1 : p.fst = q
    · by_cases h2 : p.fst = k
      · have hqk : q = k := h1 ▸ h2
        simp only [cincr]
        rw [if_pos h1]
        simp [cget, h2, hqk]
      · have hqk : ¬ q = k := fun h => h2 (h1.trans h)
        simp only [cincr]
        rw [if_pos h1]
        simp [cget, h2, hqk]
    · simp only [cincr]
      rw [if_neg h1]
      by_cases h2 : p.fst = k
      · have hqk : ¬ q = k := fun h => h1 (h ▸ h2)
        simp [cget, h2, hqk]
      · simp [cget, h2, ih]

theorem cget_foldl_cincr (syls : List String) (c : List (String × Nat)) (s : String) :
    cget (syls.foldl cincr c) s = cget c s + syls.count s := by
  induction syls generalizing c with
  | nil => simp [List.count_nil]
  | cons x xs ih =>
    rw [List.foldl_cons, ih, cget_cincr, List.count_cons]
    by_cases h : x = s
    · simp [h]
      omega
    · simp [h]

/-! Helper lemmas characterizing `analyze_frequency`. -/

theorem cget_countToken_fst (dict : List String) (seg : String → List String)
    (acc : List (String × Nat) × List (String × Nat)) (t w : String) :
    cget (countToken dict seg acc t).fst w =
      cget acc.fst w + (if t = w ∧ dict.contains w = true then 1 else 0) := by
  show cget (if dict.contains t = true then cincr acc.fst t else acc.fst) w = _
  by_cases hw : t = w
  · subst hw
    by_cases hm : t ∈ dict
    · have hc : dict.contains t = true := by simpa using hm
      rw [if_pos hc, cget_cincr]
      simp [hm]
    · have hc : ¬ dict.contains t = true := by simpa using hm
      rw [if_neg hc]
      simp [hm]
  · by_cases hm : t ∈ dict
    · have hc : dict.contains t = true := by simpa using hm
      rw [if_pos hc, cget_cincr]
      simp [hw]
    · have hc : ¬ dict.contains t = true := by simpa using hm
      rw [if_neg hc]
      simp [hw]

theorem cget_countToken_snd (dict : List String) (seg : String → List String)
    (acc : List (String × Nat) × List (String × Nat)) (t s : String) :
    cget (countToken dict seg acc t).snd s =
      cget acc.snd s + (segWithFallback seg t).count s := by
  show cget ((segWithFallback seg t).foldl cincr acc.snd) s = _
  exact cget_foldl_cincr _ _ _

theorem countToken_fold_fst (dict : List String) (seg : String → List String)
    (tokens : List String) (acc : List (String × Nat) × List (String × Nat)) (w : String) :
    cget (tokens.foldl (countToken dict seg) acc).fst w =
      cget acc.fst w + (if dict.contains w then tokens.count w else 0) := by
  induction tokens generalizing acc with
  | nil => simp [List.count_nil]
  | cons t ts ih =>
    rw [List.foldl_cons, ih, cget_countToken_fst, List.count_cons]
    by_cases hw : t = w
    · subst hw
      by_cases hm : t ∈ dict
      · simp [hm]
        omega
      · simp [hm]
    · have hbeq : (t == w) = false := by simpa using hw
      simp [hw, hbeq]

theorem countToken_fold_snd (dict : List String) (seg : String → List String)
    (tokens : List String) (acc : List (String × Nat) × List (String × Nat)) (s : String) :
    cget (tokens.foldl (countToken dict seg) acc).snd s =
      cget acc.snd s + ((tokens.map (segWithFallback seg)).flatten).count s := by
  induction tokens generalizing acc with
  | nil => simp [List.count_nil]
  | cons t ts ih =>
    rw [List.foldl_cons, ih, cget_countToken_snd]
    simp only [List.map_cons, List.flatten_cons, List.count_append]
    omega

theorem analyze_fold_fst (tok seg : String → List String) (dict : List String)
    (texts : List String) (acc : List (String × Nat) × List (String × Nat)) (w : String) :
    cget (texts.foldl
        (fun a text => (tok text).foldl (countToken dict seg) a) acc).fst w =
      cget acc.fst w +
        (if dict.contains w then ((texts.map tok).flatten).count w else 0) := by
  induction texts generalizing acc with
  | nil => simp [List.count_nil]
  | cons t ts ih =>
    rw [List.foldl_cons, ih]
    show cget ((tok t).foldl (countToken dict seg) acc).fst w + _ = _
    rw [countToken_fold_fst]
    simp only [List.map_cons, List.flatten_cons, List.count_append]
    by_cases hm : w ∈ dict
    · simp [hm]
      omega
    · simp [hm]

theorem analyze_fold_snd (tok seg : String → List String) (dict : List String)
    (texts : List String) (acc : List (String × Nat) × List (String × Nat)) (s : String) :
    cget (texts.foldl
        (fun a text => (tok text).foldl (countToken dict seg) a) acc).snd s =
      cget acc.snd s
        + (((texts.map tok).flatten.map (segWithFallback seg)).flatten).count s := by
  induction texts generalizing acc with
  | nil => simp [List.count_nil]
  | cons t ts ih =>
    rw [List.foldl_cons, ih]
    show cget ((tok t).foldl (countToken dict seg) acc).snd s + _ = _
    rw [countToken_fold_snd]
    simp only [List.map_cons, List.flatten_cons, List.map_append, List.count_append,
      List.flatten_append]
    omega

theorem analyze_fst_count (tok seg : String → List String)
    (texts dict : List String) (w : String) :
    cget (analyze_frequency tok seg texts dict).fst w =
      (if dict.contains w then ((texts.map tok).flatten).count w else 0) := by
  unfold analyze_frequency
  rw [analyze_fold_fst]
  simp [cget_nil]

theorem analyze_snd_count (tok seg : String → List String)
    (texts dict : List String) (s : String) :
    cget (analyze_frequency tok seg texts dict).snd s =
      ((((texts.map tok).flatten.map (segWithFallback seg)).flatten)).count s := by
  unfold analyze_frequency
  rw [analyze_fold_snd]
  simp [cget_nil]

/-! Helper lemmas about the stable descending sort. -/

theorem insertDescBy_perm {α : Type} (key : α → Nat) (e : α) (l : List α) :
    List.Perm (insertDescBy key e l) (e :: l) := by
  induction l with
  | nil => simp [insertDescBy]
  | cons x xs ih =>
    unfold insertDescBy
    by_cases h : key x ≤ key e
    · simp [h]
    · simp only [h, if_false]
      exact (ih.cons x).trans (List.Perm.swap e x xs)

theorem sortDescBy_perm {α : Type} (key : α → Nat) (l : List α) :
    List.Perm (sortDescBy key l) l := by
  induction l with
  | nil => exact List.Perm.refl []
  | cons x xs ih =>
    exact (insertDescBy_perm key x (sortDescBy key xs)).trans (ih.cons x)

theorem insertDescBy_pairwise {α : Type} (key : α → Nat) (e : α) (l : List α)
    (h : l.Pairwise (fun a b => key b ≤ key a)) :
    (insertDescBy key e l).Pairwise (fun a b => key b ≤ key a) := by
  induction l with
  | nil => simp [insertDescBy]
  | cons x xs ih =>
    rcases List.pairwise_cons.mp h with ⟨hx, hxs⟩
    unfold insertDescBy
    by_cases hk : key x ≤ key e
    · simp only [hk, if_true]
      refine List.pairwise_cons.mpr ⟨?_, h⟩
      intro b hb
      rcases List.mem_cons.mp hb with hb | hb
      · exact hb ▸ hk
      · exact (hx b hb).trans hk
    · simp only [hk, if_false]
      refine List.pairwise_cons.mpr ⟨?_, ih hxs⟩
      intro b hb
      have hb2 : b ∈ e :: xs := (insertDescBy_perm key e xs).subset hb
      rcases List.mem_cons.mp hb2 with hb2 | hb2
      · exact hb2 ▸ Nat.le_of_lt (Nat.lt_of_not_le hk)
      · exact hx b hb2

theorem sortDescBy_pairwise {α : Type} (key : α → Nat) (l : List α) :
    (sortDescBy key l).Pairwise (fun a b => key b ≤ key a) := by
  induction l with
  | nil => simp [sortDescBy]
  | cons x xs ih => exact insertDescBy_pairwise key x _ ih

theorem filter_insertDescBy_of_key_eq {α : Type} (key : α → Nat) (e : α) (l : List α)
    (f : Nat) (he : key e = f) :
    (insertDescBy key e l).filter (fun x => key x == f) =
      e :: l.filter (fun x => key x == f) := by
  induction l with
  | nil => simp [insertDescBy, List.filter_cons, he]
  | cons x xs ih =>
    unfold insertDescBy
    by_cases hk : key x ≤ key e
    · rw [if_pos hk]
      simp [List.filter_cons, he]
    · have hxf : ¬ key x = f := fun hcontra => hk (he ▸ hcontra ▸ Nat.le_refl _)
      rw [if_neg hk]
      simp [List.filter_cons, hxf, ih]

theorem filter_insertDescBy_of_key_ne {α : Type} (key : α → Nat) (e : α) (l : List α)
    (f : Nat) (he : ¬ key e = f) :
    (insertDescBy key e l).filter (fun x => key x == f) =
      l.filter (fun x => key x == f) := by
  induction l with
  | nil => simp [insertDescBy, List.filter_cons, he]
  | cons x xs ih =>
    unfold insertDescBy
    by_cases hk : key x ≤ key e
    · rw [if_pos hk]
      simp [List.filter_cons, he]
    · rw [if_neg hk]
      by_cases hx : key x = f <;> simp [List.filter_cons, hx, ih]

theorem sortDescBy_filter_key {α : Type} (key : α → Nat) (l : List α) (f : Nat) :
    (sortDescBy key l).filter (fun x => key x == f) =
      l.filter (fun x => key x == f) := by
  induction l with
  | nil => rfl
  | cons x xs ih =>
    show (insertDescBy key x (sortDescBy key xs)).filter _ = _
    by_cases hx : key x = f
    · rw [filter_insertDescBy_of_key_eq key x _ f hx, ih]
      simp [List.filter_cons, hx]
    · rw [filter_insertDescBy_of_key_ne key x _ f hx, ih]
      simp [List.filter_cons, hx]

theorem filter_filter_self {α : Type} (p : α → Bool) (l : List α) :
    (l.filter p).filter p = l.filter p := by
  induction l with
  | nil => rfl
  | cons x xs ih =>
    by_cases h : p x <;> simp [List.filter_cons, h, ih]

theorem generate_syllable_data_length (sc : List (String × Nat)) :
    (generate_syllable_data sc).length = sc.length := by
  unfold generate_syllable_data
  rw [List.length_map]
  exact (sortDescBy_perm Prod.snd sc).length_eq

/-! Helper lemmas about the builder pipeline. -/

theorem update_json_spec (basic : JsonData) (wc sc : List (String × Nat))
    (ws : List WordEntry) (md : Metadata)
    (hw : basic.words = some ws) (hm : basic.metadata = some md) :
    update_json_with_frequencies basic wc sc = some
      { basic with
        words := some (sortDescBy WordEntry.frequency
          (ws.map (fun w => { word := w.word, frequency := cget wc w.word })))
        metadata := some { md with
          phase := some "frequency_analysis_complete"
          words_with_frequency := some ((sortDescBy WordEntry.frequency
            (ws.map (fun w => { word := w.word, frequency := cget wc w.word }))).countP
              (fun w => decide (w.frequency > 0)))
          total_syllables := some sc.length } } := by
  unfold update_json_with_frequencies
  rw [hw, hm]

theorem build_with_frequencies_spec (basic : JsonData) (wc sc : List (String × Nat))
    (ws : List WordEntry) (md : Metadata)
    (hw : basic.words = some ws) (hm : basic.metadata = some md) :
    build_with_frequencies basic wc sc = some
      { basic with
        words := some (sortDescBy WordEntry.frequency
          (ws.map (fun w => { word := w.word, frequency := cget wc w.word })))
        metadata := some { md with
          phase := some "frequency_analysis_complete"
          words_with_frequency := some ((sortDescBy WordEntry.frequency
            (ws.map (fun w => { word := w.word, frequency := cget wc w.word }))).countP
              (fun w => decide (w.frequency > 0)))
          total_syllables := some sc.length }
        syllables := some (generate_syllable_data sc) } := by
  unfold build_with_frequencies
  rw [update_json_spec basic wc sc ws md hw hm]
  rfl

theorem run_conversion_nonempty (tok seg : String → List String)
    (dwords ctexts : List String) (hw : dwords ≠ []) (ht : ctexts ≠ []) :
    run_conversion tok seg dwords ctexts
      = build_with_frequencies (create_basic_json dwords)
          (analyze_frequency tok seg ctexts dwords).fst
          (analyze_frequency tok seg ctexts dwords).snd := by
  unfold run_conversion
  have h1 : ¬ dwords.isEmpty = true := by simp [hw]
  have h2 : ¬ ctexts.isEmpty = true := by simp [ht]
  rw [if_neg h1, if_neg h2]

theorem run_conversion_no_texts (tok seg : String → List String)
    (dwords : List String) (hw : dwords ≠ []) :
    run_conversion tok seg dwords [] = some (create_basic_json dwords) := by
  unfold run_conversion
  have h1 : ¬ dwords.isEmpty = true := by simp [hw]
  rw [if_neg h1]
  rfl

/-! Claim theorems. -/

/-- Claim C6: for every resource and dictionary set, applying
`filter_syllables_by_dictionary` twice with the same dictionary set yields
the same resource as applying it once. -/
theorem filter_syllables_idempotent (jd : JsonData) (dict : List String) :
    filter_syllables_by_dictionary (filter_syllables_by_dictionary jd dict) dict
      = filter_syllables_by_dictionary jd dict := by
  obtain ⟨md, w, s⟩ := jd
  cases s with
  | none => rfl
  | some l =>
    cases md with
    | none =>
      simp [filter_syllables_by_dictionary, filter_filter_self]
    | some m =>
      simp [filter_syllables_by_dictionary, filter_filter_self]

/-- Claim C8: a resource value with no `syllables` field is returned by
`filter_syllables_by_dictionary` completely unmodified, a no-op rather
than an error. -/
theorem filter_no_syllables_noop (jd : JsonData) (dict : List String)
    (h : jd.syllables = none) :
    filter_syllables_by_dictionary jd dict = jd := by
  unfold filter_syllables_by_dictionary
  rw [h]

/-- Witness for C8: a concrete resource with no `syllables` field passes
through the filter unchanged. -/
theorem filter_no_syllables_noop_witness :
    (JsonData.mk none none none).syllables = none ∧
    filter_syllables_by_dictionary (JsonData.mk none none none) ["abc"]
      = JsonData.mk none none none :=
  ⟨rfl, filter_no_syllables_noop (JsonData.mk none none none) ["abc"] rfl⟩

/-- Claim C9: on a resource with a `syllables` field, the filter leaves the
`words` sequence completely unchanged; the syllables become exactly the
dictionary-kept entries, a sublist of the original list (same entries, in
their original relative order). -/
theorem filter_words_frame (jd : JsonData) (dict : List String)
    (l : List SyllableEntry) (h : jd.syllables = some l) :
    (filter_syllables_by_dictionary jd dict).words = jd.words ∧
    (filter_syllables_by_dictionary jd dict).syllables
      = some (l.filter (fun e => dict.contains (lower e.syllable))) ∧
    (l.filter (fun e => dict.contains (lower e.syllable))).Sublist l := by
  obtain ⟨md, w, s⟩ := jd
  have hs : s = some l := h
  subst hs
  cases md with
  | none => exact ⟨rfl, rfl, List.filter_sublist l⟩
  | some m => exact ⟨rfl, rfl, List.filter_sublist l⟩

/-- Witness for C9 at a concrete resource: words are untouched, syllables
are the kept entries in order. -/
theorem filter_words_frame_witness :
    (JsonData.mk none (some [WordEntry.mk "w" 7])
        (some [SyllableEntry.mk "ab" 2, SyllableEntry.mk "cd" 1])).syllables
      = some [SyllableEntry.mk "ab" 2, SyllableEntry.mk "cd" 1] ∧
    (filter_syllables_by_dictionary
        (JsonData.mk none (some [WordEntry.mk "w" 7])
          (some [SyllableEntry.mk "ab" 2, SyllableEntry.mk "cd" 1])) ["ab"]).words
      = some [WordEntry.mk "w" 7] ∧
    (filter_syllables_by_dictionary
        (JsonData.mk none (some [WordEntry.mk "w" 7])
          (some [SyllableEntry.mk "ab" 2, SyllableEntry.mk "cd" 1])) ["ab"]).syllables
      = some ([SyllableEntry.mk "ab" 2, SyllableEntry.mk "cd" 1].filter
          (fun e => (["ab"] : List String).contains (lower e.syllable))) := by
  have h := filter_words_frame
    (JsonData.mk none (some [WordEntry.mk "w" 7])
      (some [SyllableEntry.mk "ab" 2, SyllableEntry.mk "cd" 1])) ["ab"]
    [SyllableEntry.mk "ab" 2, SyllableEntry.mk "cd" 1] rfl
  exact ⟨rfl, h.1, h.2.1⟩

/-- Claim C10: on a resource with a `syllables` field but no `metadata`
field, the filter still replaces the syllables with the kept entries, but
creates no metadata (and touches no other field). -/
theorem filter_missing_metadata (jd : JsonData) (dict : List String)
    (l : List SyllableEntry) (h1 : jd.syllables = some l) (h2 : jd.metadata = none) :
    (filter_syllables_by_dictionary jd dict).syllables
      = some (l.filter (fun e => dict.contains (lower e.syllable))) ∧
    (filter_syllables_by_dictionary jd dict).metadata = none ∧
    (filter_syllables_by_dictionary jd dict).words = jd.words := by
  obtain ⟨md, w, s⟩ := jd
  have hs : s = some l := h1
  have hm : md = none := h2
  subst hs
  subst hm
  exact ⟨rfl, rfl, rfl⟩

/-- Witness for C10: a concrete metadata-less resource gets its syllables
filtered and still has no metadata afterwards. -/
theorem filter_missing_metadata_witness :
    (JsonData.mk none none (some [SyllableEntry.mk "ab" 2])).syllables
      = some [SyllableEntry.mk "ab" 2] ∧
    (JsonData.mk none none (some [SyllableEntry.mk "ab" 2])).metadata = none ∧
    (filter_syllables_by_dictionary
        (JsonData.mk none none (some [SyllableEntry.mk "ab" 2])) ["zz"]).syllables
      = some ([SyllableEntry.mk "ab" 2].filter
          (fun e => (["zz"] : List String).contains (lower e.syllable))) ∧
    (filter_syllables_by_dictionary
        (JsonData.mk none none (some [SyllableEntry.mk "ab" 2])) ["zz"]).metadata
      = none := by
  have h := filter_missing_metadata
    (JsonData.mk none none (some [SyllableEntry.mk "ab" 2])) ["zz"]
    [SyllableEntry.mk "ab" 2] rfl rfl
  exact ⟨rfl, rfl, h.1, h.2.1⟩

/-- Claim C1 counterexample: the resource produced directly by
`update_json_with_frequencies` on the skeleton for `["a"]` with a one-key
syllable counter has `total_syllables = 1` while its `syllables` list is
still empty, and no `syllables_with_frequency` key at all — so the claimed
invariant fails and not all four counters are recomputed. -/
theorem update_json_counters_counterexample :
    update_json_with_frequencies (create_basic_json ["a"]) [] [("x", 1)]
      = some (JsonData.mk
          (some (Metadata.mk (some 1) (some 0) (some 1) none
            (some "frequency_analysis_complete") (some "dictionary.txt")))
          (some [WordEntry.mk "a" 0]) (some [])) ∧
    ¬ syllableCountersConsistent (JsonData.mk
          (some (Metadata.mk (some 1) (some 0) (some 1) none
            (some "frequency_analysis_complete") (some "dictionary.txt")))
          (some [WordEntry.mk "a" 0]) (some [])) := by
  constructor
  · rfl
  · decide

/-- Claim C1 (amended): after `filter_syllables_by_dictionary` (when the
resource has `syllables` and `metadata`) all four counters are recomputed
and both syllable equalities hold; the Builder function
`update_json_with_frequencies`, by contrast, recomputes only
`words_with_frequency` and `total_syllables` — `total_syllables` agrees
with the length of the syllables list only after the subsequent
syllable-generation step of `run_conversion`, and `syllables_with_frequency`
and `total_words` are left exactly as they were in the input metadata. -/
theorem metadata_counters_after_operations
    (jd : JsonData) (dict : List String) (l : List SyllableEntry) (md : Metadata)
    (h1 : jd.syllables = some l) (h2 : jd.metadata = some md)
    (basic : JsonData) (wc sc : List (String × Nat)) (ws : List WordEntry) (bmd : Metadata)
    (h3 : basic.words = some ws) (h4 : basic.metadata = some bmd) :
    syllableCountersConsistent (filter_syllables_by_dictionary jd dict) ∧
    (filter_syllables_by_dictionary jd dict).metadata.bind Metadata.total_words
      = some (jd.words.getD []).length ∧
    (filter_syllables_by_dictionary jd dict).metadata.bind Metadata.words_with_frequency
      = some ((jd.words.getD []).countP (fun w => decide (w.frequency > 0))) ∧
    (filter_syllables_by_dictionary jd dict).metadata.bind Metadata.phase
      = some "dictionary_filtered" ∧
    (∀ j, build_with_frequencies basic wc sc = some j →
      j.metadata.bind Metadata.total_syllables = some (j.syllables.getD []).length ∧
      j.metadata.bind Metadata.syllables_with_frequency = bmd.syllables_with_frequency ∧
      j.metadata.bind Metadata.total_words = bmd.total_words) := by
  obtain ⟨jmd, jw, js⟩ := jd
  have hs : js = some l := h1
  have hm : jmd = some md := h2
  subst hs
  subst hm
  refine ⟨?_, ?_, ?_, ?_, ?_⟩
  · cases jw with
    | none => simp [filter_syllables_by_dictionary, syllableCountersConsistent]
    | some ws0 => simp [filter_syllables_by_dictionary, syllableCountersConsistent]
  · cases jw with
    | none => simp [filter_syllables_by_dictionary]
    | some ws0 => simp [filter_syllables_by_dictionary]
  · cases jw with
    | none => simp [filter_syllables_by_dictionary]
    | some ws0 => simp [filter_syllables_by_dictionary]
  · cases jw with
    | none => simp [filter_syllables_by_dictionary]
    | some ws0 => simp [filter_syllables_by_dictionary]
  · intro j hj
    rw [build_with_frequencies_spec basic wc sc ws bmd h3 h4] at hj
    cases hj
    refine ⟨?_, rfl, rfl⟩
    simp [generate_syllable_data_length]

/-- Witness for the amended C1 at concrete inputs: the filtered resource
satisfies both syllable equalities, and the built resource keeps
`syllables_with_frequency` absent while `total_syllables` matches the
generated syllable list. -/
theorem metadata_counters_after_operations_witness :
    (JsonData.mk
        (some (Metadata.mk none none none none none none)) none
        (some [SyllableEntry.mk "ab" 3])).syllables = some [SyllableEntry.mk "ab" 3] ∧
    (JsonData.mk
        (some (Metadata.mk none none none none none none)) none
        (some [SyllableEntry.mk "ab" 3])).metadata
      = some (Metadata.mk none none none none none none) ∧
    (create_basic_json ["a"]).words = some [WordEntry.mk "a" 0] ∧
    (create_basic_json ["a"]).metadata
      = some (Metadata.mk (some 1) none none none
          (some "basic_conversion") (some "dictionary.txt")) ∧
    syllableCountersConsistent (filter_syllables_by_dictionary
      (JsonData.mk
        (some (Metadata.mk none none none none none none)) none
        (some [SyllableEntry.mk "ab" 3])) ["ab"]) := by
  have h := metadata_counters_after_operations
    (JsonData.mk
      (some (Metadata.mk none none none none none none)) none
      (some [SyllableEntry.mk "ab" 3])) ["ab"]
    [SyllableEntry.mk "ab" 3] (Metadata.mk none none none none none none) rfl rfl
    (create_basic_json ["a"]) [] [("x", 2)] [WordEntry.mk "a" 0]
    (Metadata.mk (some 1) none none none
      (some "basic_conversion") (some "dictionary.txt")) rfl rfl
  exact ⟨rfl, rfl, rfl, rfl, h.1⟩

/-- Claim C2 counterexample: `create_basic_json` performs no deduplication —
for the input word list `["a", "a"]` the skeleton contains two entries
with the same word string. -/
theorem skeleton_duplicates_counterexample :
    (create_basic_json ["a", "a"]).words
      = some [WordEntry.mk "a" 0, WordEntry.mk "a" 0] ∧
    ¬ (((create_basic_json ["a", "a"]).words.getD []).map WordEntry.word).Nodup := by
  constructor
  · rfl
  · decide

/-- Claim C2 (amended): `create_basic_json` produces exactly one WordEntry
per element of the input list, in input order, with frequency 0; the entry
word strings are exactly the input strings, so they are pairwise distinct
exactly when the input strings are (no deduplication is performed). -/
theorem skeleton_one_entry_per_element (words : List String) :
    (create_basic_json words).words
      = some (words.map (fun w => { word := w, frequency := 0 })) ∧
    (((create_basic_json words).words.getD []).map WordEntry.word) = words ∧
    (words.Nodup →
      (((create_basic_json words).words.getD []).map WordEntry.word).Nodup) := by
  refine ⟨rfl, ?_, ?_⟩
  · show ((words.map (fun w => WordEntry.mk w 0)).map WordEntry.word) = words
    rw [List.map_map]
    exact List.map_id words
  · intro h
    show ((words.map (fun w => WordEntry.mk w 0)).map WordEntry.word).Nodup
    rw [List.map_map]
    exact (List.map_id words).symm ▸ h

/-- Witness for the amended C2 on a duplicate-free input list. -/
theorem skeleton_one_entry_per_element_witness :
    (["a", "b"] : List String).Nodup ∧
    (create_basic_json ["a", "b"]).words
      = some [WordEntry.mk "a" 0, WordEntry.mk "b" 0] ∧
    (((create_basic_json ["a", "b"]).words.getD []).map WordEntry.word).Nodup := by
  have h := skeleton_one_entry_per_element ["a", "b"]
  exact ⟨by decide, h.1, h.2.2 (by decide)⟩

/-- Claim C3 counterexample: the word-count gate of `analyze_frequency` is
NOT performed on the lowercased token: with dictionary `["Ab"]` and the one
token `"Ab"`, the source counts it (exact match), while the spec-modelled
lowercased gate (`analyze_frequency_lowered`) would not, since `"ab"` is
not in the set — so the two disagree and the claim is false for
`analyze_frequency`. -/
theorem analyze_gate_not_lowercased :
    cget (analyze_frequency (fun t => [t]) (fun _ => []) ["Ab"] ["Ab"]).fst "Ab" = 1 ∧
    cget (analyze_frequency_lowered (fun t => [t]) (fun _ => []) ["Ab"] ["Ab"]).fst "Ab" = 0 := by
  constructor
  · rfl
  · rfl

/-- Claim C3 (amended): only the Dictionary-Membership Filter lowercases
before its set-membership test (each syllable string is lowercased before
being tested against the dictionary set); the word-count gate of
`analyze_frequency` tests the token exactly as supplied, with no
lowercasing. -/
theorem membership_tests_case_asymmetry
    (jd : JsonData) (dict : List String) (l : List SyllableEntry)
    (h : jd.syllables = some l)
    (tok seg : String → List String) (texts dwords : List String) (w : String) :
    (filter_syllables_by_dictionary jd dict).syllables
      = some (l.filter (fun e => dict.contains (lower e.syllable))) ∧
    cget (analyze_frequency tok seg texts dwords).fst w
      = (if dwords.contains w then ((texts.map tok).flatten).count w else 0) := by
  refine ⟨?_, analyze_fst_count tok seg texts dwords w⟩
  obtain ⟨md, jw, js⟩ := jd
  have hs : js = some l := h
  subst hs
  cases md with
  | none => rfl
  | some m => rfl

/-- Witness for the amended C3: a concrete mixed-case syllable is kept via
its lowercased form, and a concrete mixed-case token is counted by exact
match. -/
theorem membership_tests_case_asymmetry_witness :
    (JsonData.mk none none (some [SyllableEntry.mk "AB" 2])).syllables
      = some [SyllableEntry.mk "AB" 2] ∧
    (filter_syllables_by_dictionary
        (JsonData.mk none none (some [SyllableEntry.mk "AB" 2])) ["ab"]).syllables
      = some ([SyllableEntry.mk "AB" 2].filter
          (fun e => (["ab"] : List String).contains (lower e.syllable))) ∧
    cget (analyze_frequency (fun t => [t]) (fun _ => []) ["Ab"] ["Ab"]).fst "Ab"
      = (if (["Ab"] : List String).contains "Ab"
          then (((["Ab"] : List String).map (fun t => [t])).flatten).count "Ab" else 0) := by
  have h := membership_tests_case_asymmetry
    (JsonData.mk none none (some [SyllableEntry.mk "AB" 2])) ["ab"]
    [SyllableEntry.mk "AB" 2] rfl
    (fun t => [t]) (fun _ => []) ["Ab"] ["Ab"] "Ab"
  exact ⟨rfl, h.1, h.2⟩

/-- Claim C4: `analyze_frequency` increments the word counter for a token
exactly when the token is a member of the dictionary set (so the total is
the dictionary-gated occurrence count), unconditionally counts every
syllable of every token — with the token itself as the single syllable when
segmentation yields an empty result (`segWithFallback`) — and in the full
pipeline every word entry has a final frequency that equals the number of
occurrences of its word string as a recognized token across the corpus. -/
theorem analyze_frequency_counts (tok seg : String → List String)
    (texts dict : List String) (w s : String)
    (dwords ctexts : List String) (hw : dwords ≠ []) (ht : ctexts ≠ []) :
    cget (analyze_frequency tok seg texts dict).fst w
      = (if dict.contains w then ((texts.map tok).flatten).count w else 0) ∧
    cget (analyze_frequency tok seg texts dict).snd s
      = ((((texts.map tok).flatten).map (segWithFallback seg)).flatten).count s ∧
    (∀ j jws, run_conversion tok seg dwords ctexts = some j → j.words = some jws →
      ∀ e ∈ jws, e.frequency = (((ctexts.map tok).flatten).count e.word)) := by
  refine ⟨analyze_fst_count tok seg texts dict w,
    analyze_snd_count tok seg texts dict s, ?_⟩
  intro j jws hj hjw e he
  rw [run_conversion_nonempty tok seg dwords ctexts hw ht,
    build_with_frequencies_spec (create_basic_json dwords) _ _
      (dwords.map (fun x => WordEntry.mk x 0))
      (Metadata.mk (some dwords.length) none none none
        (some "basic_conversion") (some "dictionary.txt")) rfl rfl] at hj
  obtain rfl := Option.some.inj hj
  obtain rfl := Option.some.inj hjw
  have hL : e ∈ (dwords.map (fun x => WordEntry.mk x 0)).map
      (fun w => WordEntry.mk w.word
        (cget (analyze_frequency tok seg ctexts dwords).fst w.word)) :=
    (sortDescBy_perm WordEntry.frequency _).subset he
  rw [List.map_map] at hL
  obtain ⟨x, hx, hfx⟩ := List.mem_map.mp hL
  have hc : dwords.contains x = true := by simpa using hx
  have hfreq : cget (analyze_frequency tok seg ctexts dwords).fst x
      = ((ctexts.map tok).flatten).count x := by
    rw [analyze_fst_count, if_pos hc]
  subst hfx
  exact hfreq

/-- Witness for C4: one token `"a"`, dictionary `["a"]`, identity-ish
tokenizer and empty segmenter — the word count is 1 and the pipeline
entry for `"a"` carries that occurrence count. -/
theorem analyze_frequency_counts_witness :
    (["a"] : List String) ≠ [] ∧
    cget (analyze_frequency (fun t => [t]) (fun _ => []) ["a"] ["a"]).fst "a"
      = (if (["a"] : List String).contains "a"
          then (((["a"] : List String).map (fun t => [t])).flatten).count "a" else 0) ∧
    (WordEntry.mk "a" 1).frequency
      = (((["a"] : List String).map (fun t => [t])).flatten).count "a" := by
  have h := analyze_frequency_counts (fun t => [t]) (fun _ => []) ["a"] ["a"] "a" "a"
    ["a"] ["a"] (by decide) (by decide)
  refine ⟨by decide, h.1, ?_⟩
  exact h.2.2
    (JsonData.mk
      (some (Metadata.mk (some 1) (some 1) (some 1) none
        (some "frequency_analysis_complete") (some "dictionary.txt")))
      (some [WordEntry.mk "a" 1]) (some [SyllableEntry.mk "a" 1]))
    [WordEntry.mk "a" 1] (by rfl) rfl (WordEntry.mk "a" 1) (by decide)

/-- Claim C5: `update_json_with_frequencies` sets the frequency of every entry to
`wordCounts.get(word, 0)`, re-sorts the words by frequency descending, the
sort is stable (each frequency class of the output is the corresponding
original subsequence), and no entry is added or removed (the output is a
permutation of the frequency-updated entries, and the multiset of word
strings is unchanged). -/
theorem applyFrequencies_spec (jd : JsonData) (wc sc : List (String × Nat))
    (ws : List WordEntry) (md : Metadata)
    (hw : jd.words = some ws) (hm : jd.metadata = some md) :
    ∃ j out, update_json_with_frequencies jd wc sc = some j ∧
      j.words = some out ∧
      out = sortDescBy WordEntry.frequency
        (ws.map (fun w => { word := w.word, frequency := cget wc w.word })) ∧
      List.Perm out (ws.map (fun w => { word := w.word, frequency := cget wc w.word })) ∧
      out.Pairwise (fun a b => b.frequency ≤ a.frequency) ∧
      (∀ f, out.filter (fun e => e.frequency == f)
        = (ws.map (fun w => { word := w.word, frequency := cget wc w.word })).filter
            (fun e => e.frequency == f)) ∧
      List.Perm (out.map WordEntry.word) (ws.map WordEntry.word) := by
  refine ⟨_, _, update_json_spec jd wc sc ws md hw hm, rfl, rfl,
    sortDescBy_perm _ _, sortDescBy_pairwise _ _,
    (fun f => sortDescBy_filter_key WordEntry.frequency _ f), ?_⟩
  refine ((sortDescBy_perm WordEntry.frequency _).map WordEntry.word).trans ?_
  rw [List.map_map]
  exact List.Perm.refl _

/-- Witness for C5 with a frequency tie: the two entries get their counter
values and keep their original relative order. -/
theorem applyFrequencies_spec_witness :
    (JsonData.mk (some (Metadata.mk none none none none none none))
        (some [WordEntry.mk "b" 0, WordEntry.mk "a" 0]) none).words
      = some [WordEntry.mk "b" 0, WordEntry.mk "a" 0] ∧
    (JsonData.mk (some (Metadata.mk none none none none none none))
        (some [WordEntry.mk "b" 0, WordEntry.mk "a" 0]) none).metadata
      = some (Metadata.mk none none none none none none) ∧
    (update_json_with_frequencies
        (JsonData.mk (some (Metadata.mk none none none none none none))
          (some [WordEntry.mk "b" 0, WordEntry.mk "a" 0]) none)
        [("a", 1), ("b", 1)] []).map JsonData.words
      = some (some [WordEntry.mk "b" 1, WordEntry.mk "a" 1]) := by
  obtain ⟨j, out, h1, h2, h3, _⟩ := applyFrequencies_spec
    (JsonData.mk (some (Metadata.mk none none none none none none))
      (some [WordEntry.mk "b" 0, WordEntry.mk "a" 0]) none)
    [("a", 1), ("b", 1)] [] [WordEntry.mk "b" 0, WordEntry.mk "a" 0]
    (Metadata.mk none none none none none none) rfl rfl
  refine ⟨rfl, rfl, ?_⟩
  rw [h1]
  show some (j.words) = _
  rw [h2, h3]
  rfl

/-- Claim C7: with a non-empty dictionary word list and an empty corpus, the
pipeline result is exactly the unmodified skeleton — phase
`basic_conversion`, empty syllables, every word entry at frequency 0 — a
valid terminal (`some`) state, not an error. -/
theorem empty_corpus_keeps_skeleton (tok seg : String → List String)
    (words : List String) (hw : words ≠ []) :
    run_conversion tok seg words [] = some (create_basic_json words) ∧
    (create_basic_json words).metadata.bind Metadata.phase = some "basic_conversion" ∧
    (create_basic_json words).syllables = some [] ∧
    (∀ ws, (create_basic_json words).words = some ws → ∀ e ∈ ws, e.frequency = 0) := by
  refine ⟨run_conversion_no_texts tok seg words hw, rfl, rfl, ?_⟩
  intro ws hws e he
  obtain rfl := Option.some.inj hws
  obtain ⟨x, _, hfx⟩ := List.mem_map.mp he
  subst hfx
  rfl

/-- Witness for C7: with dictionary `["a"]` and no corpus texts the run
yields the skeleton itself. -/
theorem empty_corpus_keeps_skeleton_witness :
    (["a"] : List String) ≠ [] ∧
    run_conversion (fun t => [t]) (fun _ => []) ["a"] [] = some (create_basic_json ["a"]) ∧
    (create_basic_json ["a"]).metadata.bind Metadata.phase = some "basic_conversion" := by
  have h := empty_corpus_keeps_skeleton (fun t => [t]) (fun _ => []) ["a"] (by decide)
  exact ⟨by decide, h.1, h.2.1⟩

end ShanFreq
